import Mathlib

/-!
Verification development for the contact-management retrieval core
(`vector_db_manager.py`, `supabase_config.py`).

Modelling conventions:
* Python strings are modelled as `List Char`; the Python `lower` method is
  `Char.toLower` mapped over the list, `in` on strings is boolean substring
  containment, and `split()` is whitespace splitting that drops empty parts.
* Python float scores are modelled exactly as rationals (`ℚ`); every claim is
  about the algebraic value of the scoring pipeline, not IEEE rounding.
* External collaborators (the ChromaDB collection, the Supabase PostgREST
  backend, the OpenAI embedding endpoint) are parameters of the pipeline
  functions: a backend is a function that either returns rows or fails,
  mirroring the `try`/`except` structure of the source.
-/

namespace ContactManagement

/-- Lower-casing a character list, modelling the Python lower method. -/
def lowerStr (s : List Char) : List Char := s.map Char.toLower

/-- Boolean test whether the first character list is an initial segment of the
second one. -/
def isPrefixB : List Char → List Char → Bool
  | [], _ => true
  | _ :: _, [] => false
  | a :: as, b :: bs => a == b && isPrefixB as bs

/-- Boolean substring containment, modelling the Python in operator on
strings: the empty needle is contained in everything. -/
def isSubstrB (needle : List Char) : List Char → Bool
  | [] => isPrefixB needle []
  | c :: rest => isPrefixB needle (c :: rest) || isSubstrB needle rest

/-- Helper for `splitWords`: accumulates the current word in reverse. -/
def splitWordsAux : List Char → List Char → List (List Char)
  | [], acc => if acc.isEmpty then [] else [acc.reverse]
  | c :: rest, acc =>
    if c.isWhitespace then
      if acc.isEmpty then splitWordsAux rest [] else acc.reverse :: splitWordsAux rest []
    else splitWordsAux rest (c :: acc)

/-- The Python split method with no argument: split on runs of whitespace,
dropping empty parts. -/
def splitWords (s : List Char) : List (List Char) := splitWordsAux s []

/-- The Python join method with a single-space separator. -/
def joinSpace : List (List Char) → List Char
  | [] => []
  | [x] => x
  | x :: y :: rest => x ++ ' ' :: joinSpace (y :: rest)

/-- Business domain expansion table of `VectorDBManager._create_intelligent_query`,
in source order. -/
def domainMappings : List (List Char × List Char) :=
  [("real estate".data, "real estate property realty housing homes commercial residential investment broker agent developer landlord tenant mortgage".data),
   ("realestate".data, "real estate property realty housing homes commercial residential investment broker agent developer landlord tenant mortgage".data),
   ("property".data, "real estate property realty housing homes commercial residential investment broker agent developer".data),
   ("hospital".data, "hospital medical healthcare clinic doctor physician nurse specialist pediatric children surgery emergency care treatment".data),
   ("medical".data, "medical healthcare hospital clinic doctor physician nurse specialist treatment patient care health".data),
   ("healthcare".data, "healthcare medical hospital clinic doctor physician nurse specialist treatment patient care health".data),
   ("doctor".data, "doctor physician medical healthcare hospital clinic specialist treatment patient care".data),
   ("engineering".data, "engineering technical construction infrastructure design project civil mechanical electrical software".data),
   ("engineer".data, "engineer engineering technical construction infrastructure design project civil mechanical electrical".data),
   ("manufacturing".data, "manufacturing industrial production fabrication factory assembly materials supply chain".data),
   ("glass".data, "glass glazing window mirror manufacturing industrial construction materials".data),
   ("technology".data, "technology software IT digital computer programming development tech innovation".data),
   ("finance".data, "finance banking investment insurance accounting financial services money credit".data),
   ("education".data, "education school university college teaching learning academic training".data),
   ("legal".data, "legal law attorney lawyer court litigation legal services judicial".data),
   ("consulting".data, "consulting advisory services business strategy management expert".data),
   ("retail".data, "retail store shop commerce sales customer service products".data),
   ("restaurant".data, "restaurant food dining hospitality catering culinary chef".data),
   ("hotel".data, "hotel hospitality accommodation tourism travel lodging".data)]

/-- Generic business context suffix always appended by the query enhancer. -/
def businessContext : List Char :=
  "business company service provider professional industry commercial".data

/-- The append loop of `_create_intelligent_query`: for every mapping entry
whose key occurs in the lowered query, collect its expansion, in table order. -/
def collectExpansions : List (List Char × List Char) → List Char → List (List Char)
  | [], _ => []
  | (key, related) :: rest, ql =>
    if isSubstrB key ql then related :: collectExpansions rest ql
    else collectExpansions rest ql

/-- `VectorDBManager._create_intelligent_query`: the original query, the
expansions of every matching trigger term, and the generic suffix, joined by
single spaces. -/
def createIntelligentQuery (userQuery : List Char) : List Char :=
  let queryLower := lowerStr userQuery
  let enhancedTerms := [userQuery] ++ collectExpansions domainMappings queryLower ++ [businessContext]
  joinSpace enhancedTerms

/-- Closed form of the enhancer following the words of the specification: the
original query verbatim, then the expansion string of every trigger occurring
in the lowered query in mapping-iteration order, then the generic suffix, all
joined by single spaces. -/
def enhanceSpec (userQuery : List Char) : List Char :=
  joinSpace
    ([userQuery] ++
      (domainMappings.filter (fun p => isSubstrB p.1 (lowerStr userQuery))).map Prod.snd ++
      [businessContext])

/-- Category trigger table of `VectorDBManager._calculate_business_relevance`,
in source order.  The capitalised entry IT is kept verbatim from the source. -/
def categoryMatches : List (List Char × List (List Char)) :=
  [("real estate".data, ["real".data, "estate".data, "property".data, "realty".data, "housing".data]),
   ("healthcare".data, ["hospital".data, "medical".data, "health".data, "doctor".data, "clinic".data]),
   ("manufacturing".data, ["manufacturing".data, "industrial".data, "factory".data, "glass".data]),
   ("engineering".data, ["engineering".data, "engineer".data, "technical".data, "construction".data]),
   ("technology".data, ["tech".data, "software".data, "IT".data, "digital".data, "computer".data])]

/-- Metadata fields of a stored candidate that the scorer inspects.  The
remaining metadata fields (name, phone, timestamps, image path) never
influence any score and are omitted from the scoring record. -/
structure CandMetadata where
  company : List Char := []
  businessCategory : List Char := []
  businessSubcategory : List Char := []
  servicesOffered : List Char := []
  industryKeywords : List Char := []
deriving Repr, DecidableEq

/-- The category loop of `_calculate_business_relevance`: walk the table; on
the first category whose trigger keywords hit the lowered query and whose name
occurs in the record category or subcategory, add 0.8 and stop; a keyword hit
without a name hit moves on to the next category. -/
def categoryLoop : List (List Char × List (List Char)) → List Char → List Char → List Char → ℚ
  | [], _, _, _ => 0
  | (cat, kws) :: rest, ql, category, subcategory =>
    if kws.any (fun kw => isSubstrB kw ql) then
      if isSubstrB cat category || isSubstrB cat subcategory then 8/10
      else categoryLoop rest ql category subcategory
    else categoryLoop rest ql category subcategory

/-- The word loop of `_calculate_business_relevance`: 0.3 for every query word
longer than 3 characters occurring in the services or industry keywords. -/
def wordLoop : List (List Char) → List Char → List Char → ℚ
  | [], _, _ => 0
  | w :: ws, services, keywords =>
    (if decide (w.length > 3) && (isSubstrB w services || isSubstrB w keywords) then 3/10 else 0)
      + wordLoop ws services keywords

/-- `VectorDBManager._calculate_business_relevance`. -/
def calculateBusinessRelevance (metadata : CandMetadata) (query : List Char) : ℚ :=
  let queryLower := lowerStr query
  let category := lowerStr metadata.businessCategory
  let subcategory := lowerStr metadata.businessSubcategory
  let services := lowerStr metadata.servicesOffered
  let keywords := lowerStr metadata.industryKeywords
  let score :=
    categoryLoop categoryMatches queryLower category subcategory
      + wordLoop (splitWords queryLower) services keywords
  min score 1

/-- Characterisation of the business score following the words of the claim:
0.8 exactly when some table category has a trigger keyword in the lowered
query and its name inside the record category or subcategory, plus 0.3 per
long query word found in services or industry keywords, capped at 1. -/
def businessRelevanceSpec (metadata : CandMetadata) (query : List Char) : ℚ :=
  let ql := lowerStr query
  let catBonus : ℚ :=
    if categoryMatches.any (fun p =>
        p.2.any (fun kw => isSubstrB kw ql) &&
        (isSubstrB p.1 (lowerStr metadata.businessCategory) ||
         isSubstrB p.1 (lowerStr metadata.businessSubcategory)))
    then 8/10 else 0
  let longMatches :=
    ((splitWords ql).filter (fun w =>
        decide (w.length > 3) &&
        (isSubstrB w (lowerStr metadata.servicesOffered) ||
         isSubstrB w (lowerStr metadata.industryKeywords)))).length
  min (catBonus + (3/10) * longMatches) 1

/-- `VectorDBManager._calculate_keyword_relevance`: the fraction of query
words longer than 3 characters that occur in the lowered document; 0 when
there is no such word. -/
def calculateKeywordRelevance (document query : List Char) : ℚ :=
  let docLower := lowerStr document
  let queryWords := (splitWords (lowerStr query)).filter (fun w => decide (w.length > 3))
  if queryWords.isEmpty then 0
  else (queryWords.countP (fun w => isSubstrB w docLower) : ℚ) / (queryWords.length : ℚ)

/-- A raw candidate row of a ChromaDB query response.  The source receives
parallel arrays (ids, documents, metadatas, distances) and indexes them at the
same position; the model zips them into one row.  A response without a
distances array is modelled by `distance = none`, which the processing loop
replaces by the default 1.0. -/
structure RawCand where
  id : List Char
  doc : List Char
  metadata : CandMetadata
  distance : Option ℚ
deriving Repr, DecidableEq

/-- One formatted result of `_process_intelligent_results`.  The source also
attaches the full contact data fetched from the companion collection by id;
that fetch is an external lookup keyed by `id` and carries no scoring
information, so the model keeps the id. -/
structure ScoredResult where
  id : List Char
  metadata : CandMetadata
  distance : ℚ
  relevanceScore : ℚ
  businessMatch : Bool
deriving Repr, DecidableEq

/-- The per-candidate body of the `_process_intelligent_results` loop:
compute the three signals, combine them with the 0.4/0.4/0.2 weights and set
the business-match flag. -/
def scoreCandidate (cand : RawCand) (originalQuery : List Char) : ScoredResult :=
  let distance := cand.distance.getD 1
  let baseRelevance := max 0 (1 - distance)
  let businessRelevance := calculateBusinessRelevance cand.metadata originalQuery
  let keywordRelevance := calculateKeywordRelevance cand.doc originalQuery
  let finalRelevance := baseRelevance * (4/10) + businessRelevance * (4/10) + keywordRelevance * (2/10)
  { id := cand.id
    metadata := cand.metadata
    distance := distance
    relevanceScore := finalRelevance
    businessMatch := decide (businessRelevance > 3/10) }

/-- Descending order on the relevance score, the key of the final
`sort(key=..., reverse=True)` call. -/
def scoreGE (a b : ScoredResult) : Prop := b.relevanceScore ≤ a.relevanceScore

instance : DecidableRel scoreGE := fun a b =>
  inferInstanceAs (Decidable (b.relevanceScore ≤ a.relevanceScore))

instance : IsTotal ScoredResult scoreGE :=
  ⟨fun a b => (le_total b.relevanceScore a.relevanceScore).imp (fun h => h) (fun h => h)⟩

instance : IsTrans ScoredResult scoreGE :=
  ⟨fun _ _ _ h1 h2 => le_trans h2 h1⟩

/-- `VectorDBManager._process_intelligent_results`: score every candidate,
keep those with score at least 0.15, sort by score descending and truncate to
the limit.  The Python list sort is stable, and a stable descending sort is
uniquely determined by the key, so it is modelled by insertion sort under
`scoreGE`, which places earlier elements before later ones of equal score. -/
def processIntelligentResults (cands : List RawCand) (originalQuery : List Char)
    (limit : Nat) : List ScoredResult :=
  let formatted := (cands.map (fun c => scoreCandidate c originalQuery)).filter
    (fun r => decide ((15/100 : ℚ) ≤ r.relevanceScore))
  (List.insertionSort scoreGE formatted).take limit

/-- `VectorDBManager.query_contacts`.  The collaborators are parameters:
`total` is the collection count, `getEmb` the embedding endpoint (`none`
models the caught embedding failure of `_get_embedding`), `vq` the
embedding-based collection query and `tq` the text-based collection query,
each taking the over-fetch count `min (limit*2) total` and either returning
rows or raising.  A raised error from the text query reaches the outer
`except` of the source, which returns the empty list. -/
def vdbQueryContacts (total : Nat) (getEmb : List Char → Option (List ℚ))
    (vq : List ℚ → Nat → Except Unit (List RawCand))
    (tq : List Char → Nat → Except Unit (List RawCand))
    (query : List Char) (limit : Nat) : List ScoredResult :=
  if total == 0 then []
  else
    let enhancedQuery := createIntelligentQuery query
    let nResults := min (limit * 2) total
    let raw : Except Unit (List RawCand) :=
      match getEmb enhancedQuery with
      | some emb =>
        match vq emb nResults with
        | Except.ok r => Except.ok r
        | Except.error _ => tq enhancedQuery nResults
      | none => tq enhancedQuery nResults
    match raw with
    | Except.ok r => processIntelligentResults r query limit
    | Except.error _ => []

/-- A contact record of the in-memory development store
(`SupabaseManager._dev_store_contact`).  The uuid, image path and raw
contact-data payload are opaque to every claim and kept as plain fields or
omitted. -/
structure DevContact where
  id : List Char
  userId : List Char
  company : List Char
  name : List Char
  email : List Char
  phone : List Char
  businessCategory : List Char
  businessSubcategory : List Char
  servicesOffered : List Char
  industryKeywords : List (List Char)
  createdAt : List Char
  updatedAt : List Char
deriving Repr, DecidableEq

/-- The metadata dictionary built by the development-mode formatters. -/
structure DevMeta where
  company : List Char
  name : List Char
  email : List Char
  phone : List Char
  businessCategory : List Char
  businessSubcategory : List Char
  servicesOffered : List Char
  industryKeywords : List (List Char)
  createdAt : List Char
  updatedAt : List Char
deriving Repr, DecidableEq

/-- A formatted development-mode result: id, metadata and the relevance score
key, which `_dev_search_contacts` sets to 0.8 and `_dev_get_user_contacts`
leaves absent. -/
structure DevResult where
  id : List Char
  metadata : DevMeta
  relevanceScore : Option ℚ
deriving Repr, DecidableEq

def devMetaOf (r : DevContact) : DevMeta :=
  { company := r.company, name := r.name, email := r.email, phone := r.phone
    businessCategory := r.businessCategory, businessSubcategory := r.businessSubcategory
    servicesOffered := r.servicesOffered, industryKeywords := r.industryKeywords
    createdAt := r.createdAt, updatedAt := r.updatedAt }

/-- Formatter of the `_dev_search_contacts` loop, with the fixed 0.8 score. -/
def fmtDevSearch (r : DevContact) : DevResult :=
  { id := r.id, metadata := devMetaOf r, relevanceScore := some (8/10) }

/-- Formatter of the `_dev_get_user_contacts` loop (no relevance key). -/
def fmtDevGet (r : DevContact) : DevResult :=
  { id := r.id, metadata := devMetaOf r, relevanceScore := none }

/-- The in-memory development store `_dev_contacts`, a dictionary from user id
to the list of that user's contact records, modelled as an association list
with the usual first-match lookup. -/
abbrev DevStore := List (List Char × List DevContact)

def lookupStore : DevStore → List Char → Option (List DevContact)
  | [], _ => none
  | (k, v) :: rest, u => if k == u then some v else lookupStore rest u

/-- Replace the value of the first entry with the given key. -/
def updateStore : DevStore → List Char → List DevContact → DevStore
  | [], _, _ => []
  | (k, v) :: rest, u, newList =>
    if k == u then (k, newList) :: rest else (k, v) :: updateStore rest u newList

/-- Store invariant: every record sits in the bucket of its own user id.  The
store operations below preserve it, so it holds for every reachable store. -/
def storeInv (store : DevStore) : Bool :=
  store.all fun p => p.2.all fun r => r.userId == p.1

/-- `SupabaseManager._dev_store_contact`: the stored record carries the
caller's user id and is appended to that user's bucket, creating the bucket
when absent. -/
def devStoreContact (store : DevStore) (userId : List Char) (c : DevContact) : DevStore :=
  let record := { c with userId := userId }
  match lookupStore store userId with
  | some bucket => updateStore store userId (bucket ++ [record])
  | none => store ++ [(userId, [record])]

/-- The searchable text of the `_dev_search_contacts` matching step:
an f-string of company, name, email, business category and services, lowered. -/
def devSearchableText (r : DevContact) : List Char :=
  lowerStr (r.company ++ " ".data ++ r.name ++ " ".data ++ r.email ++ " ".data ++
    r.businessCategory ++ " ".data ++ r.servicesOffered)

/-- `SupabaseManager._dev_search_contacts`: substring-match the lowered query
against each record of the user's own bucket, format the matches with the
fixed 0.8 score, and truncate to the limit. -/
def devSearchContacts (store : DevStore) (userId query : List Char) (limit : Nat) :
    List DevResult :=
  let userContacts := (lookupStore store userId).getD []
  let queryLower := lowerStr query
  ((userContacts.filter (fun r => isSubstrB queryLower (devSearchableText r))).map
    fmtDevSearch).take limit

/-- `SupabaseManager._dev_get_user_contacts`: the first `limit` records of the
user's own bucket, formatted. -/
def devGetUserContacts (store : DevStore) (userId : List Char) (limit : Nat) :
    List DevResult :=
  (((lookupStore store userId).getD []).take limit).map fmtDevGet

/-- `SupabaseManager.semantic_search_contacts` in development mode: falls back
to the simple search with the literal query business. -/
def devSemanticSearchContacts (store : DevStore) (userId : List Char) (limit : Nat) :
    List DevResult :=
  devSearchContacts store userId ("business".data) limit

/-- Remove the first record whose id matches, mirroring the indexed loop with
`del` in `_dev_delete_contact`; `none` when no record matches. -/
def removeFirstWithId (contactId : List Char) : List DevContact → Option (List DevContact)
  | [] => none
  | r :: rest =>
    if r.id == contactId then some rest
    else (removeFirstWithId contactId rest).map (fun l => r :: l)

/-- `SupabaseManager._dev_delete_contact`: `False` without touching the store
when the user has no bucket or no record with the id; otherwise delete the
first matching record of that user's bucket and return `True`. -/
def devDeleteContact (store : DevStore) (userId contactId : List Char) :
    Bool × DevStore :=
  match lookupStore store userId with
  | none => (false, store)
  | some bucket =>
    match removeFirstWithId contactId bucket with
    | none => (false, store)
    | some newBucket => (true, updateStore store userId newBucket)

/-- A row of the production `contacts` table as returned by the PostgREST
backend; `industryKeywords` keeps the stored JSON string, decoded only on
read. -/
structure ProdRecord where
  id : List Char
  userId : List Char
  company : List Char
  name : List Char
  email : List Char
  phone : List Char
  businessCategory : List Char
  businessSubcategory : List Char
  servicesOffered : List Char
  industryKeywords : List Char
  createdAt : List Char
  updatedAt : List Char
deriving Repr, DecidableEq

/-- A formatted production search result; `search_user_contacts` attaches the
fixed 0.8 relevance score, `get_user_contacts` does not. -/
structure ProdResult where
  id : List Char
  company : List Char
  name : List Char
  email : List Char
  phone : List Char
  businessCategory : List Char
  businessSubcategory : List Char
  servicesOffered : List Char
  industryKeywords : List Char
  createdAt : List Char
  updatedAt : List Char
  relevanceScore : Option ℚ
deriving Repr, DecidableEq

/-- The formatting loop of `SupabaseManager.search_user_contacts`. -/
def fmtProdSearch (r : ProdRecord) : ProdResult :=
  { id := r.id, company := r.company, name := r.name, email := r.email, phone := r.phone
    businessCategory := r.businessCategory, businessSubcategory := r.businessSubcategory
    servicesOffered := r.servicesOffered, industryKeywords := r.industryKeywords
    createdAt := r.createdAt, updatedAt := r.updatedAt, relevanceScore := some (8/10) }

/-- The Supabase query builder chain
`table.select.eq(user_id).or_(ilike...).order.limit.execute` is executed by
the external PostgREST server.  A backend is modelled as a function from the
scope (user id), query string and limit to either the returned rows or a
raised error, matching the `try`/`except` shape of the callers. -/
def SpBackend := List Char → List Char → Nat → Except Unit (List ProdRecord)

/-- The guarantee expressed by the `.eq(user_id, ...)` clause that every call
site attaches: rows the backend returns are owned by the requested user. -/
def OwnerScopedBackend (B : SpBackend) : Prop :=
  ∀ userId query limit rows, B userId query limit = Except.ok rows →
    ∀ r ∈ rows, r.userId = userId

/-- `SupabaseManager.search_user_contacts` (production path): format the rows
of the owner-scoped text query with the fixed 0.8 score; any backend error is
caught and turned into the empty list. -/
def spSearchUserContacts (B : SpBackend) (userId query : List Char) (limit : Nat) :
    List ProdResult :=
  match B userId query limit with
  | Except.ok rows => rows.map fmtProdSearch
  | Except.error _ => []

/-- `SupabaseVectorStore.semantic_search_contacts`: no vector search is
implemented; it falls back to the text search with the literal query
business. -/
def spSemanticSearchContacts (B : SpBackend) (userId : List Char) (limit : Nat) :
    List ProdResult :=
  spSearchUserContacts B userId ("business".data) limit

/-- `SupabaseVectorStore.query_contacts` (the effective, second definition in
the source): with an embedding, try the semantic path and keep a non-empty
answer; otherwise fall back to the text search with the original query.  All
errors are already absorbed into empty lists by the callees, and the outer
`except` returns the empty list as well. -/
def spQueryContacts (B : SpBackend) (userId query : List Char)
    (queryEmbedding : Option (List ℚ)) (limit : Nat) : List ProdResult :=
  match queryEmbedding with
  | some _ =>
    let results := spSemanticSearchContacts B userId limit
    if results.isEmpty then spSearchUserContacts B userId query limit else results
  | none => spSearchUserContacts B userId query limit

/-! Concrete collaborator instances and sample data used by witnesses and
counterexamples. -/

/-- A backend whose every call raises. -/
def failingBackend : SpBackend := fun _ _ _ => Except.error ()

/-- A backend that succeeds with zero rows. -/
def emptyBackend : SpBackend := fun _ _ _ => Except.ok []

/-- A backend returning a single row owned by the requested user. -/
def singleRowBackend : SpBackend := fun userId _ _ =>
  Except.ok [ProdRecord.mk ("p1".data) userId ("Acme Realty".data) ("Bob".data)
    ("bob@x".data) ("1".data) ("Real Estate".data) [] ("residential sales".data) [] [] []]

/-- An embedding endpoint that always fails (returns nothing). -/
def noEmbedding : List Char → Option (List ℚ) := fun _ => none

/-- A vector query that always raises. -/
def failingVectorQuery : List ℚ → Nat → Except Unit (List RawCand) :=
  fun _ _ => Except.error ()

/-- A text query that always raises. -/
def failingTextQuery : List Char → Nat → Except Unit (List RawCand) :=
  fun _ _ => Except.error ()

/-- A text query echoing the query string it received into the id of a single
perfect-distance candidate, making the received query observable. -/
def echoTextQuery : List Char → Nat → Except Unit (List RawCand) :=
  fun s _ => Except.ok [RawCand.mk s [] {} (some 0)]

/-- A sample contact of owner uA. -/
def sampleContactA : DevContact :=
  DevContact.mk ("c1".data) ("uA".data) ("Acme Realty".data) ("Bob".data) ("bob@x".data)
    ("1".data) ("Real Estate".data) [] ("residential sales".data) [] [] []

/-- A sample contact of owner uB. -/
def sampleContactB : DevContact :=
  DevContact.mk ("c2".data) ("uB".data) ("Besthealth".data) ("Ann".data) ("ann@y".data)
    ("2".data) ("Healthcare".data) [] ("clinic services".data) [] [] []

/-- A two-owner development store. -/
def sampleStore : DevStore :=
  [(("uA".data), [sampleContactA]), (("uB".data), [sampleContactB])]

/-- A contact whose searchable text matches the short query zq while giving
zero business and keyword relevance. -/
def shortQueryContact : DevContact :=
  DevContact.mk ("c4".data) ("uA".data) ("zqcorp".data) [] [] [] [] [] [] [] [] []

/-- A one-owner store holding only `shortQueryContact`. -/
def shortQueryStore : DevStore := [(("uA".data), [shortQueryContact])]

section ScoringLemmas

/-- The word loop accumulates exactly 0.3 per matching long word. -/
lemma wordLoop_eq_count (ws : List (List Char)) (services keywords : List Char) :
    wordLoop ws services keywords =
      (3/10 : ℚ) * ((ws.filter (fun w =>
        decide (w.length > 3) && (isSubstrB w services || isSubstrB w keywords))).length : ℚ) := by
  induction ws with
  | nil => simp [wordLoop]
  | cons w ws ih =>
    by_cases h : (decide (w.length > 3) && (isSubstrB w services || isSubstrB w keywords)) = true
    · simp [wordLoop, h, ih]
      ring
    · simp [wordLoop, h, ih]

/-- The category loop yields 0.8 exactly when some table entry has a trigger
keyword in the query and its name in the category or subcategory, else 0. -/
lemma categoryLoop_eq_any (table : List (List Char × List (List Char)))
    (ql category subcategory : List Char) :
    categoryLoop table ql category subcategory =
      (if table.any (fun p =>
          p.2.any (fun kw => isSubstrB kw ql) &&
          (isSubstrB p.1 category || isSubstrB p.1 subcategory))
       then (8/10 : ℚ) else 0) := by
  induction table with
  | nil => simp [categoryLoop]
  | cons p rest ih =>
    obtain ⟨cat, kws⟩ := p
    rw [categoryLoop, List.any_cons]
    cases hkw : (kws.any fun kw => isSubstrB kw ql) <;>
      cases hname : (isSubstrB cat category || isSubstrB cat subcategory) <;>
        simp only [Bool.false_and, Bool.true_and, Bool.false_or, Bool.true_or, ih] <;>
          simp

lemma categoryLoop_nonneg (table : List (List Char × List (List Char)))
    (ql category subcategory : List Char) :
    0 ≤ categoryLoop table ql category subcategory := by
  rw [categoryLoop_eq_any]
  split <;> norm_num

lemma wordLoop_nonneg (ws : List (List Char)) (services keywords : List Char) :
    0 ≤ wordLoop ws services keywords := by
  rw [wordLoop_eq_count]
  positivity

/-- The code business score agrees with the claim-side characterisation. -/
lemma businessRelevance_eq_spec (metadata : CandMetadata) (query : List Char) :
    calculateBusinessRelevance metadata query = businessRelevanceSpec metadata query := by
  simp only [calculateBusinessRelevance, businessRelevanceSpec,
    categoryLoop_eq_any, wordLoop_eq_count]

lemma businessRelevance_nonneg (metadata : CandMetadata) (query : List Char) :
    0 ≤ calculateBusinessRelevance metadata query := by
  unfold calculateBusinessRelevance
  refine le_min ?_ (by norm_num)
  exact add_nonneg (categoryLoop_nonneg _ _ _ _) (wordLoop_nonneg _ _ _)

lemma businessRelevance_le_one (metadata : CandMetadata) (query : List Char) :
    calculateBusinessRelevance metadata query ≤ 1 := by
  unfold calculateBusinessRelevance
  exact min_le_right _ _

lemma keywordRelevance_nonneg (document query : List Char) :
    0 ≤ calculateKeywordRelevance document query := by
  unfold calculateKeywordRelevance
  by_cases h : ((splitWords (lowerStr query)).filter (fun w => decide (w.length > 3))).isEmpty
  · simp [h]
  · simp only [h, if_false]
    positivity

lemma keywordRelevance_le_one (document query : List Char) :
    calculateKeywordRelevance document query ≤ 1 := by
  unfold calculateKeywordRelevance
  by_cases h : ((splitWords (lowerStr query)).filter (fun w => decide (w.length > 3))).isEmpty
  · simp [h]
  · simp only [h, if_false]
    have hlen : 0 < ((splitWords (lowerStr query)).filter (fun w => decide (w.length > 3))).length := by
      cases hq : (splitWords (lowerStr query)).filter (fun w => decide (w.length > 3)) with
      | nil => rw [hq] at h; simp at h
      | cons a l => simp
    rw [div_le_one (by exact_mod_cast hlen)]
    exact_mod_cast List.countP_le_length _

end ScoringLemmas

/-- C5: for every scored candidate, the combined score equals
base*0.4 + business*0.4 + keyword*0.2 with the base signal computed from the
backend distance as max(0, 1 - distance); for the distances the backend
actually produces (nonnegative), the combined score lies in [0, 1]. -/
theorem C5_combined_score_formula (cand : RawCand) (query : List Char)
    (hd : 0 ≤ cand.distance.getD 1) :
    (scoreCandidate cand query).relevanceScore =
      max 0 (1 - cand.distance.getD 1) * (4/10)
        + calculateBusinessRelevance cand.metadata query * (4/10)
        + calculateKeywordRelevance cand.doc query * (2/10) ∧
    0 ≤ (scoreCandidate cand query).relevanceScore ∧
    (scoreCandidate cand query).relevanceScore ≤ 1 := by
  refine ⟨rfl, ?_, ?_⟩
  · have hb : (0:ℚ) ≤ max 0 (1 - cand.distance.getD 1) := le_max_left _ _
    have hs := businessRelevance_nonneg cand.metadata query
    have hk := keywordRelevance_nonneg cand.doc query
    show (0:ℚ) ≤ max 0 (1 - cand.distance.getD 1) * (4/10)
        + calculateBusinessRelevance cand.metadata query * (4/10)
        + calculateKeywordRelevance cand.doc query * (2/10)
    positivity
  · have hb : max 0 (1 - cand.distance.getD 1) ≤ 1 :=
      max_le (by norm_num) (by linarith)
    have hs := businessRelevance_le_one cand.metadata query
    have hk := keywordRelevance_le_one cand.doc query
    show max 0 (1 - cand.distance.getD 1) * (4/10)
        + calculateBusinessRelevance cand.metadata query * (4/10)
        + calculateKeywordRelevance cand.doc query * (2/10) ≤ 1
    linarith

/-- Witness for C5 at a concrete candidate with distance 0.3. -/
theorem C5_combined_score_formula_witness :
    (0:ℚ) ≤ (RawCand.mk ("id1".data) ("doc".data) {} (some (3/10))).distance.getD 1 ∧
    ((scoreCandidate (RawCand.mk ("id1".data) ("doc".data) {} (some (3/10))) ("hospital".data)).relevanceScore =
      max 0 (1 - (RawCand.mk ("id1".data) ("doc".data) {} (some (3/10))).distance.getD 1) * (4/10)
        + calculateBusinessRelevance {} ("hospital".data) * (4/10)
        + calculateKeywordRelevance ("doc".data) ("hospital".data) * (2/10) ∧
      0 ≤ (scoreCandidate (RawCand.mk ("id1".data) ("doc".data) {} (some (3/10))) ("hospital".data)).relevanceScore ∧
      (scoreCandidate (RawCand.mk ("id1".data) ("doc".data) {} (some (3/10))) ("hospital".data)).relevanceScore ≤ 1) :=
  ⟨by norm_num, C5_combined_score_formula _ _ (by norm_num)⟩

/-- C6: the business score equals the claimed rule: a single 0.8 category
bonus exactly when some category of the table has a trigger keyword inside
the lowered query and its name inside the record category or subcategory,
plus 0.3 for each long query word found in services or industry keywords,
capped at 1; and the business-match flag of a scored candidate holds exactly
when the business score exceeds 0.3. -/
theorem C6_business_relevance_rule (metadata : CandMetadata) (query : List Char)
    (cand : RawCand) :
    calculateBusinessRelevance metadata query = businessRelevanceSpec metadata query ∧
    ((scoreCandidate cand query).businessMatch = true ↔
      calculateBusinessRelevance cand.metadata query > 3/10) :=
  ⟨businessRelevance_eq_spec metadata query, by simp [scoreCandidate]⟩

/-- C7: the keyword score is the fraction of long query words occurring in
the lowered document, it is 0 when the query has no word longer than 3
characters, and it always lies in [0, 1]. -/
theorem C7_keyword_relevance_fraction (document query : List Char) :
    (((splitWords (lowerStr query)).filter (fun w => decide (w.length > 3))) = [] →
      calculateKeywordRelevance document query = 0) ∧
    calculateKeywordRelevance document query =
      ((((splitWords (lowerStr query)).filter (fun w => decide (w.length > 3))).countP
        (fun w => isSubstrB w (lowerStr document)) : ℚ) /
       ((((splitWords (lowerStr query)).filter (fun w => decide (w.length > 3))).length : ℚ))) ∧
    0 ≤ calculateKeywordRelevance document query ∧
    calculateKeywordRelevance document query ≤ 1 := by
  refine ⟨?_, ?_, keywordRelevance_nonneg document query, keywordRelevance_le_one document query⟩
  · intro h
    unfold calculateKeywordRelevance
    simp [h]
  · unfold calculateKeywordRelevance
    by_cases h : ((splitWords (lowerStr query)).filter (fun w => decide (w.length > 3))).isEmpty
    · rw [List.isEmpty_iff] at h
      simp [h]
    · simp [h]

/-- Witness for C7 on a query with no word longer than 3 characters. -/
theorem C7_keyword_relevance_fraction_witness :
    calculateKeywordRelevance ("alpha beta".data) ("ab cd".data) = 0 :=
  (C7_keyword_relevance_fraction ("alpha beta".data) ("ab cd".data)).1 (by decide)

section RankerLemmas

/-- Ordered insertion under `scoreGE` leaves the subsequence of any fixed
score unchanged apart from placing the new element first when it carries that
score: elements passed over have strictly larger score. -/
lemma filter_orderedInsert_score (a : ScoredResult) (l : List ScoredResult) (s : ℚ) :
    (List.orderedInsert scoreGE a l).filter (fun x => decide (x.relevanceScore = s)) =
      if a.relevanceScore = s then
        a :: l.filter (fun x => decide (x.relevanceScore = s))
      else l.filter (fun x => decide (x.relevanceScore = s)) := by
  induction l with
  | nil =>
    by_cases hs : a.relevanceScore = s <;> simp [hs]
  | cons b t ih =>
    by_cases hab : scoreGE a b
    · rw [List.orderedInsert_of_le _ _ hab]
      by_cases hs : a.relevanceScore = s <;> simp [hs]
    · have hlt : a.relevanceScore < b.relevanceScore := by
        unfold scoreGE at hab
        linarith [lt_of_not_le hab]
      rw [List.orderedInsert, if_neg hab]
      by_cases hs : a.relevanceScore = s
      · have hbs : ¬ b.relevanceScore = s := by
          intro hb
          rw [hs] at hlt
          rw [hb] at hlt
          exact lt_irrefl s hlt
        simp [hs, hbs, ih]
      · by_cases hbs : b.relevanceScore = s <;> simp [hs, hbs, ih]

/-- The stable sort preserves the subsequence of every fixed score. -/
lemma filter_insertionSort_score (l : List ScoredResult) (s : ℚ) :
    (List.insertionSort scoreGE l).filter (fun x => decide (x.relevanceScore = s)) =
      l.filter (fun x => decide (x.relevanceScore = s)) := by
  induction l with
  | nil => rfl
  | cons a t ih =>
    rw [List.insertionSort, filter_orderedInsert_score]
    by_cases hs : a.relevanceScore = s <;> simp [hs, ih]

end RankerLemmas

/-- C8: the ranking step returns at most `limit` results, each with combined
score at least 0.15, ordered by score descending; for every score value the
returned subsequence of that score is a subsequence of the thresholded
candidates in their original order (stability); and when no candidate reaches
the threshold the result is the empty list. -/
theorem C8_ranking_policy (cands : List RawCand) (query : List Char) (limit : Nat) :
    (processIntelligentResults cands query limit).length ≤ limit ∧
    (∀ r ∈ processIntelligentResults cands query limit,
      (15/100 : ℚ) ≤ r.relevanceScore) ∧
    List.Pairwise scoreGE (processIntelligentResults cands query limit) ∧
    (∀ s : ℚ,
      List.Sublist
        ((processIntelligentResults cands query limit).filter
          (fun x => decide (x.relevanceScore = s)))
        (((cands.map (fun c => scoreCandidate c query)).filter
          (fun r => decide ((15/100 : ℚ) ≤ r.relevanceScore))).filter
          (fun x => decide (x.relevanceScore = s)))) ∧
    ((∀ c ∈ cands, (scoreCandidate c query).relevanceScore < 15/100) →
      processIntelligentResults cands query limit = []) := by
  refine ⟨List.length_take_le _ _, ?_, ?_, ?_, ?_⟩
  · intro r hr
    unfold processIntelligentResults at hr
    have hr2 := List.take_subset _ _ hr
    have hr3 := (List.perm_insertionSort scoreGE _).subset hr2
    have := List.mem_filter.mp hr3
    exact of_decide_eq_true this.2
  · unfold processIntelligentResults
    exact (List.sorted_insertionSort scoreGE _).sublist (List.take_sublist _ _)
  · intro s
    unfold processIntelligentResults
    have h1 := (List.take_sublist limit
      (List.insertionSort scoreGE ((cands.map (fun c => scoreCandidate c query)).filter
        (fun r => decide ((15/100 : ℚ) ≤ r.relevanceScore))))).filter
      (fun x => decide (x.relevanceScore = s))
    rw [filter_insertionSort_score] at h1
    exact h1
  · intro hall
    unfold processIntelligentResults
    have : ((cands.map (fun c => scoreCandidate c query)).filter
        (fun r => decide ((15/100 : ℚ) ≤ r.relevanceScore))) = [] := by
      rw [List.filter_eq_nil_iff]
      intro r hr
      obtain ⟨c, hc, rfl⟩ := List.mem_map.mp hr
      have := hall c hc
      simp only [decide_eq_true_eq]
      intro hle
      linarith
    rw [this]
    simp

/-- Witness for C8: a candidate at distance 0 is returned with score 0.4, and
a candidate at the default distance 1 with an unrelated document is filtered
out, giving the empty list. -/
theorem C8_ranking_policy_witness :
    (processIntelligentResults [RawCand.mk ("a".data) ("doc".data) {} (some 0)]
      ("q".data) 1).length ≤ 1 ∧
    (15/100 : ℚ) ≤ (scoreCandidate (RawCand.mk ("a".data) ("doc".data) {} (some 0))
      ("q".data)).relevanceScore ∧
    processIntelligentResults [RawCand.mk ("b".data) ([]) {} none] ("q".data) 1 = [] := by
  have heq : processIntelligentResults [RawCand.mk ("a".data) ("doc".data) {} (some 0)]
      ("q".data) 1 =
      [scoreCandidate (RawCand.mk ("a".data) ("doc".data) {} (some 0)) ("q".data)] := by
    unfold processIntelligentResults scoreCandidate calculateKeywordRelevance
      calculateBusinessRelevance
    simp +decide [categoryLoop_eq_any, wordLoop_eq_count, splitWords, splitWordsAux, lowerStr,
      isSubstrB, isPrefixB]
    norm_num
  refine ⟨(C8_ranking_policy [RawCand.mk ("a".data) ("doc".data) {} (some 0)] ("q".data) 1).1,
    ?_, ?_⟩
  · exact (C8_ranking_policy [RawCand.mk ("a".data) ("doc".data) {} (some 0)] ("q".data) 1).2.1
      (scoreCandidate (RawCand.mk ("a".data) ("doc".data) {} (some 0)) ("q".data))
      (by rw [heq]; exact List.mem_singleton_self _)
  · refine (C8_ranking_policy [RawCand.mk ("b".data) ([]) {} none] ("q".data) 1).2.2.2.2 ?_
    intro c hc
    rw [List.mem_singleton] at hc
    subst hc
    unfold scoreCandidate calculateKeywordRelevance calculateBusinessRelevance
    simp +decide [categoryLoop_eq_any, wordLoop_eq_count, splitWords, splitWordsAux, lowerStr,
      isSubstrB, isPrefixB]

section EnhancerLemmas

/-- The collecting loop of the enhancer equals the filtered projection of the
mapping table. -/
lemma collectExpansions_eq_filter (m : List (List Char × List Char)) (ql : List Char) :
    collectExpansions m ql = (m.filter (fun p => isSubstrB p.1 ql)).map Prod.snd := by
  induction m with
  | nil => rfl
  | cons p rest ih =>
    obtain ⟨key, related⟩ := p
    by_cases h : isSubstrB key ql
    · simp [collectExpansions, h, ih]
    · simp [collectExpansions, h, ih]

/-- Joining a nonempty list with one element appended puts a single space and
that element at the end. -/
lemma joinSpace_append_single (x : List Char) (xs : List (List Char)) (c : List Char) :
    joinSpace ((x :: xs) ++ [c]) = joinSpace (x :: xs) ++ ' ' :: c := by
  induction xs generalizing x with
  | nil => simp [joinSpace]
  | cons y ys ih =>
    have : ((x :: y :: ys) ++ [c]) = x :: ((y :: ys) ++ [c]) := rfl
    rw [this]
    show x ++ ' ' :: joinSpace ((y :: ys) ++ [c]) = (x ++ ' ' :: joinSpace (y :: ys)) ++ ' ' :: c
    rw [ih y]
    simp

end EnhancerLemmas

/-- C9: the enhancer deterministically returns the original query verbatim,
the expansion string of every trigger term occurring in the lowered query in
mapping-iteration order, and the generic business suffix, joined by single
spaces; in particular the output always ends in the generic suffix, and the
empty query still yields the suffix. -/
theorem C9_query_enhancer (q : List Char) :
    createIntelligentQuery q = enhanceSpec q ∧
    (∃ p, createIntelligentQuery q = p ++ ' ' :: businessContext) ∧
    createIntelligentQuery [] = ' ' :: businessContext := by
  refine ⟨?_, ?_, by decide⟩
  · simp only [createIntelligentQuery, enhanceSpec, collectExpansions_eq_filter]
  · refine ⟨joinSpace (q :: collectExpansions domainMappings (lowerStr q)), ?_⟩
    unfold createIntelligentQuery
    show joinSpace ((q :: collectExpansions domainMappings (lowerStr q)) ++ [businessContext]) = _
    rw [joinSpace_append_single]

section StoreLemmas

/-- Under the store invariant, every record of a looked-up bucket belongs to
the key owner. -/
lemma storeInv_lookup (store : DevStore) (userId : List Char)
    (hInv : storeInv store = true) :
    ∀ r ∈ (lookupStore store userId).getD [], r.userId = userId := by
  induction store with
  | nil => intro r hr; simp [lookupStore] at hr
  | cons p rest ih =>
    obtain ⟨k, v⟩ := p
    rw [storeInv, List.all_cons] at hInv
    obtain ⟨hv, hrest⟩ := Bool.and_eq_true_iff.mp hInv
    intro r hr
    by_cases hk : (k == userId) = true
    · rw [lookupStore, if_pos hk] at hr
      simp only [Option.getD_some] at hr
      have := List.all_eq_true.mp hv r hr
      have hkr : r.userId = k := by simpa using this
      rw [hkr]
      exact eq_of_beq hk
    · rw [lookupStore, if_neg hk] at hr
      exact ih hrest r hr

/-- Looking up a different key is unaffected by `updateStore`. -/
lemma lookupStore_updateStore_other (store : DevStore) (userId v newList)
    (hne : v ≠ userId) :
    lookupStore (updateStore store userId newList) v = lookupStore store v := by
  induction store with
  | nil => rfl
  | cons p rest ih =>
    obtain ⟨k, l⟩ := p
    by_cases hk : (k == userId) = true
    · rw [updateStore, if_pos hk]
      have hkv : (k == v) = false := by
        rw [beq_eq_false_iff_ne]
        intro h
        exact hne ((eq_of_beq hk).symm.trans h).symm
      rw [lookupStore, lookupStore, if_neg (by simp [hkv]), if_neg (by simp [hkv])]
    · rw [updateStore, if_neg hk]
      by_cases hkv : (k == v) = true
      · rw [lookupStore, lookupStore, if_pos hkv, if_pos hkv]
      · rw [lookupStore, lookupStore, if_neg hkv, if_neg hkv]
        exact ih

/-- Looking up the updated key returns the new bucket, provided the key was
present. -/
lemma lookupStore_updateStore_self (store : DevStore) (userId newList)
    (hpresent : (lookupStore store userId).isSome) :
    lookupStore (updateStore store userId newList) userId = some newList := by
  induction store with
  | nil => simp [lookupStore] at hpresent
  | cons p rest ih =>
    obtain ⟨k, l⟩ := p
    by_cases hk : (k == userId) = true
    · rw [updateStore, if_pos hk, lookupStore, if_pos hk]
    · rw [updateStore, if_neg hk, lookupStore, if_neg hk]
      rw [lookupStore, if_neg hk] at hpresent
      exact ih hpresent

/-- Splitting a bucket at the first record carrying the deleted id. -/
lemma removeFirstWithId_some_split (contactId : List Char) (l : List DevContact)
    (l2 : List DevContact) (h : removeFirstWithId contactId l = some l2) :
    ∃ pre r post, l = pre ++ r :: post ∧ r.id = contactId ∧
      (∀ x ∈ pre, x.id ≠ contactId) ∧ l2 = pre ++ post := by
  induction l generalizing l2 with
  | nil => simp [removeFirstWithId] at h
  | cons r rest ih =>
    by_cases hr : (r.id == contactId) = true
    · rw [removeFirstWithId, if_pos hr] at h
      refine ⟨[], r, rest, rfl, eq_of_beq hr, by simp, ?_⟩
      simpa using h.symm
    · rw [removeFirstWithId, if_neg hr] at h
      cases hrec : removeFirstWithId contactId rest with
      | none => rw [hrec] at h; simp at h
      | some rest2 =>
        rw [hrec] at h
        have h2 : r :: rest2 = l2 := by simpa using h
        obtain ⟨pre, r2, post, hsplit, hid, hpre, hrest2⟩ := ih rest2 hrec
        refine ⟨r :: pre, r2, post, by rw [hsplit]; simp, hid, ?_, ?_⟩
        · intro x hx
          rcases List.mem_cons.mp hx with rfl | hx2
          · exact fun hc => absurd (beq_iff_eq.mpr hc) (by simp [hr])
          · exact hpre x hx2
        · rw [← h2, hrest2]
          rfl

/-- The remove helper returns nothing exactly when no record carries the id. -/
lemma removeFirstWithId_none_iff (contactId : List Char) (l : List DevContact) :
    removeFirstWithId contactId l = none ↔ ∀ r ∈ l, r.id ≠ contactId := by
  induction l with
  | nil => simp [removeFirstWithId]
  | cons r rest ih =>
    by_cases hr : (r.id == contactId) = true
    · rw [removeFirstWithId, if_pos hr]
      simp only [iff_false_intro (Option.some_ne_none rest), false_iff]
      intro hall
      exact hall r (List.mem_cons_self r rest) (eq_of_beq hr)
    · rw [removeFirstWithId, if_neg hr]
      constructor
      · intro h x hx
        rcases List.mem_cons.mp hx with rfl | hx2
        · exact fun hc => absurd (beq_iff_eq.mpr hc) (by simp [hr])
        · exact (ih.mp (by simpa using h)) x hx2
      · intro hall
        have := ih.mpr (fun x hx => hall x (List.mem_cons_of_mem r hx))
        rw [this]
        rfl

end StoreLemmas

/-- C1: owner scoping.  Under the store invariant (records sit in their
owner's bucket) every development-mode retrieval operation — text search,
get-all and the development semantic search — returns only formatted records
of the requested owner, and the production search pipeline over any
owner-scoped backend likewise returns only the requested owner's rows. -/
theorem C1_owner_scoping (store : DevStore) (userId query : List Char) (limit : Nat)
    (B : SpBackend) (hInv : storeInv store = true) (hB : OwnerScopedBackend B) :
    (∀ res ∈ devSearchContacts store userId query limit,
      ∃ rec ∈ (lookupStore store userId).getD [],
        rec.userId = userId ∧ res = fmtDevSearch rec) ∧
    (∀ res ∈ devGetUserContacts store userId limit,
      ∃ rec ∈ (lookupStore store userId).getD [],
        rec.userId = userId ∧ res = fmtDevGet rec) ∧
    (∀ res ∈ devSemanticSearchContacts store userId limit,
      ∃ rec ∈ (lookupStore store userId).getD [],
        rec.userId = userId ∧ res = fmtDevSearch rec) ∧
    (∀ emb res, res ∈ spQueryContacts B userId query emb limit →
      ∃ rec, rec.userId = userId ∧ res = fmtProdSearch rec) := by
  have hBucket := storeInv_lookup store userId hInv
  have hsearch : ∀ q2 : List Char, ∀ res ∈ devSearchContacts store userId q2 limit,
      ∃ rec ∈ (lookupStore store userId).getD [],
        rec.userId = userId ∧ res = fmtDevSearch rec := by
    intro q2 res hres
    unfold devSearchContacts at hres
    have hres2 := List.take_subset _ _ hres
    obtain ⟨rec, hrec, rfl⟩ := List.mem_map.mp hres2
    have hrec2 := List.mem_of_mem_filter hrec
    exact ⟨rec, hrec2, hBucket rec hrec2, rfl⟩
  have hsp : ∀ q2 : List Char, ∀ res ∈ spSearchUserContacts B userId q2 limit,
      ∃ rec, rec.userId = userId ∧ res = fmtProdSearch rec := by
    intro q2 res hres
    unfold spSearchUserContacts at hres
    cases hcall : B userId q2 limit with
    | ok rows =>
      rw [hcall] at hres
      obtain ⟨rec, hrec, rfl⟩ := List.mem_map.mp hres
      exact ⟨rec, hB userId q2 limit rows hcall rec hrec, rfl⟩
    | error e =>
      rw [hcall] at hres
      simp at hres
  refine ⟨hsearch query, ?_, hsearch ("business".data), ?_⟩
  · intro res hres
    unfold devGetUserContacts at hres
    obtain ⟨rec, hrec, rfl⟩ := List.mem_map.mp hres
    have hrec2 := List.take_subset _ _ hrec
    exact ⟨rec, hrec2, hBucket rec hrec2, rfl⟩
  · intro emb res hres
    unfold spQueryContacts at hres
    cases emb with
    | none => exact hsp query res hres
    | some e =>
      by_cases hempty : (spSemanticSearchContacts B userId limit).isEmpty
      · rw [if_pos hempty] at hres
        exact hsp query res hres
      · rw [if_neg hempty] at hres
        exact hsp ("business".data) res hres

/-- Witness for C1 on a two-owner store and a single-row backend. -/
theorem C1_owner_scoping_witness :
    (∃ rec ∈ (lookupStore sampleStore ("uA".data)).getD [],
      rec.userId = ("uA".data) ∧ fmtDevSearch sampleContactA = fmtDevSearch rec) ∧
    (∃ rec, rec.userId = ("uA".data) ∧
      fmtProdSearch (ProdRecord.mk ("p1".data) ("uA".data) ("Acme Realty".data)
        ("Bob".data) ("bob@x".data) ("1".data) ("Real Estate".data) []
        ("residential sales".data) [] [] []) = fmtProdSearch rec) := by
  have hInv : storeInv sampleStore = true := by decide
  have hB : OwnerScopedBackend singleRowBackend := by
    intro userId q lim rows h r hr
    unfold singleRowBackend at h
    cases h
    rcases List.mem_singleton.mp hr with rfl
    rfl
  have hmemdev : fmtDevSearch sampleContactA ∈
      devSearchContacts sampleStore ("uA".data) ("realty".data) 10 := by
    have : devSearchContacts sampleStore ("uA".data) ("realty".data) 10 =
        [fmtDevSearch sampleContactA] := by
      unfold devSearchContacts sampleStore sampleContactA devSearchableText lowerStr
      simp +decide [isSubstrB, isPrefixB, lookupStore]
    rw [this]
    exact List.mem_singleton_self _
  have hmemsp : fmtProdSearch (ProdRecord.mk ("p1".data) ("uA".data) ("Acme Realty".data)
      ("Bob".data) ("bob@x".data) ("1".data) ("Real Estate".data) []
      ("residential sales".data) [] [] []) ∈
      spQueryContacts singleRowBackend ("uA".data) ("realty".data) none 10 := by
    unfold spQueryContacts spSearchUserContacts singleRowBackend
    exact List.mem_singleton_self _
  exact ⟨(C1_owner_scoping sampleStore ("uA".data) ("realty".data) 10 singleRowBackend
      hInv hB).1 _ hmemdev,
    (C1_owner_scoping sampleStore ("uA".data) ("realty".data) 10 singleRowBackend
      hInv hB).2.2.2 none _ hmemsp⟩

/-- C10: development-mode delete is owner-checked and leaves the store intact
on failure.  It returns false exactly when the owner has no contact with the
id, and then the store is unchanged; on success exactly the first matching
contact of that owner is removed and every other owner's bucket is
untouched. -/
theorem C10_dev_delete_frame (store : DevStore) (userId contactId : List Char) :
    ((devDeleteContact store userId contactId).1 = false →
      (devDeleteContact store userId contactId).2 = store) ∧
    ((devDeleteContact store userId contactId).1 = false ↔
      ∀ r ∈ (lookupStore store userId).getD [], r.id ≠ contactId) ∧
    ((devDeleteContact store userId contactId).1 = true →
      ∃ pre r post, (lookupStore store userId).getD [] = pre ++ r :: post ∧
        r.id = contactId ∧ (∀ x ∈ pre, x.id ≠ contactId) ∧
        lookupStore (devDeleteContact store userId contactId).2 userId =
          some (pre ++ post) ∧
        ∀ v, v ≠ userId →
          lookupStore (devDeleteContact store userId contactId).2 v =
            lookupStore store v) := by
  cases hlook : lookupStore store userId with
  | none =>
    have heq : devDeleteContact store userId contactId = (false, store) := by
      unfold devDeleteContact
      rw [hlook]
    rw [heq]
    refine ⟨fun _ => rfl, ?_, fun h => by simp at h⟩
    simp [hlook]
  | some bucket =>
    cases hrem : removeFirstWithId contactId bucket with
    | none =>
      have heq : devDeleteContact store userId contactId = (false, store) := by
        unfold devDeleteContact
        simp only [hlook, hrem]
      rw [heq]
      refine ⟨fun _ => rfl, ?_, fun h => by simp at h⟩
      simp only [hlook, Option.getD_some]
      constructor
      · intro _
        exact (removeFirstWithId_none_iff contactId bucket).mp hrem
      · intro _
        trivial
    | some newBucket =>
      have heq : devDeleteContact store userId contactId =
          (true, updateStore store userId newBucket) := by
        unfold devDeleteContact
        simp only [hlook, hrem]
      rw [heq]
      refine ⟨fun h => by simp at h, ?_, ?_⟩
      · simp only [hlook, Option.getD_some]
        constructor
        · intro h
          simp at h
        · intro hall
          have hnone := (removeFirstWithId_none_iff contactId bucket).mpr hall
          rw [hnone] at hrem
          exact Option.noConfusion hrem
      · intro _
        obtain ⟨pre, r, post, hsplit, hid, hpre, hnew⟩ :=
          removeFirstWithId_some_split contactId bucket newBucket hrem
        refine ⟨pre, r, post, by simpa using hsplit, hid, hpre, ?_, ?_⟩
        · rw [← hnew]
          exact lookupStore_updateStore_self store userId newBucket
            (by rw [hlook]; rfl)
        · intro v hv
          exact lookupStore_updateStore_other store userId v newBucket hv

/-- Witness for C10: deleting a present contact succeeds and splits the
bucket; deleting an absent id fails and leaves the store untouched. -/
theorem C10_dev_delete_frame_witness :
    (∃ pre r post,
      (lookupStore sampleStore ("uA".data)).getD [] = pre ++ r :: post ∧
      r.id = ("c1".data) ∧ (∀ x ∈ pre, x.id ≠ ("c1".data)) ∧
      lookupStore (devDeleteContact sampleStore ("uA".data) ("c1".data)).2 ("uA".data) =
        some (pre ++ post) ∧
      ∀ v, v ≠ ("uA".data) →
        lookupStore (devDeleteContact sampleStore ("uA".data) ("c1".data)).2 v =
          lookupStore sampleStore v) ∧
    (devDeleteContact sampleStore ("uA".data) ("nope".data)).2 = sampleStore :=
  ⟨(C10_dev_delete_frame sampleStore ("uA".data) ("c1".data)).2.2 (by decide),
   (C10_dev_delete_frame sampleStore ("uA".data) ("nope".data)).1 (by decide)⟩

/-- Counterexample for C2: when both the semantic path and the text path fail
(the backend raises on every call), the Supabase pipeline returns the empty
list, the same value a successful search with zero rows returns; the chroma
pipeline with both collection queries raising likewise returns the empty
list.  No pipeline-level error distinct from the empty result is surfaced. -/
theorem C2_total_failure_counterexample :
    spQueryContacts failingBackend ("uA".data) ("q".data) (some [1]) 5 = [] ∧
    spQueryContacts emptyBackend ("uA".data) ("q".data) (some [1]) 5 = [] ∧
    vdbQueryContacts 1 (fun _ => some [1]) failingVectorQuery failingTextQuery
      ("q".data) 5 = [] :=
  ⟨rfl, rfl, rfl⟩

/-- C2 amended: when every backend call fails, both pipelines catch the
errors and return the empty list — indistinguishable from the valid
zero-result outcome — rather than surfacing a pipeline-level error. -/
theorem C2_amended_total_failure_empty
    (B : SpBackend) (uid query : List Char) (emb : Option (List ℚ)) (lim : Nat)
    (total : Nat) (getEmb : List Char → Option (List ℚ))
    (vq : List ℚ → Nat → Except Unit (List RawCand))
    (tq : List Char → Nat → Except Unit (List RawCand))
    (hB : ∀ u s l, B u s l = Except.error ())
    (hvq : ∀ e n, vq e n = Except.error ())
    (htq : ∀ s n, tq s n = Except.error ()) :
    spQueryContacts B uid query emb lim = [] ∧
    vdbQueryContacts total getEmb vq tq query lim = [] := by
  constructor
  · unfold spQueryContacts spSemanticSearchContacts spSearchUserContacts
    cases emb
    · simp only [hB]
    · simp only [hB]
      rfl
  · unfold vdbQueryContacts
    by_cases h0 : (total == 0) = true
    · rw [if_pos h0]
    · rw [if_neg h0]
      cases hge : getEmb (createIntelligentQuery query) with
      | none => simp only [hge, htq]
      | some e => simp only [hge, hvq, htq]

/-- Witness for the amended C2 at concrete failing collaborators. -/
theorem C2_amended_total_failure_empty_witness :
    spQueryContacts failingBackend ("u".data) ("q".data) none 3 = [] ∧
    vdbQueryContacts 2 noEmbedding failingVectorQuery failingTextQuery ("q".data) 3 = [] :=
  C2_amended_total_failure_empty failingBackend ("u".data) ("q".data) none 3 2
    noEmbedding failingVectorQuery failingTextQuery
    (fun _ _ _ => rfl) (fun _ _ => rfl) (fun _ _ => rfl)

/-- Counterexample for C3: with no embedding available, the chroma pipeline
falls back to a text query carrying the ENHANCED query, not the original one.
The echoing text backend makes the received query observable as the result
id: it equals the enhanced query of hospital, which differs from the original
query. -/
theorem C3_fallback_query_counterexample :
    (vdbQueryContacts 1 noEmbedding failingVectorQuery echoTextQuery
      ("hospital".data) 5).map (fun r => r.id) =
      [createIntelligentQuery ("hospital".data)] ∧
    createIntelligentQuery ("hospital".data) ≠ ("hospital".data) := by
  constructor
  · unfold vdbQueryContacts noEmbedding echoTextQuery processIntelligentResults
      scoreCandidate calculateKeywordRelevance calculateBusinessRelevance
    simp +decide [categoryLoop_eq_any, wordLoop_eq_count, splitWords, splitWordsAux,
      lowerStr, isSubstrB, isPrefixB]
    norm_num
  · decide

/-- C3 amended: when the embedding is absent or the vector query raises, the
chroma pipeline falls back to the text query applied to the ENHANCED query
and returns whatever list that produces (empty on a further failure); in the
Supabase pipeline, a missing embedding or empty semantic results fall back to
the owner-scoped text search with the original query. -/
theorem C3_amended_fallback_behaviour
    (total : Nat) (getEmb : List Char → Option (List ℚ))
    (vq : List ℚ → Nat → Except Unit (List RawCand))
    (tq : List Char → Nat → Except Unit (List RawCand))
    (q : List Char) (lim : Nat) (B : SpBackend) (uid : List Char) (e : List ℚ)
    (htot : (total == 0) = false) :
    (getEmb (createIntelligentQuery q) = none →
      vdbQueryContacts total getEmb vq tq q lim =
        (match tq (createIntelligentQuery q) (min (lim * 2) total) with
         | Except.ok r => processIntelligentResults r q lim
         | Except.error _ => [])) ∧
    (getEmb (createIntelligentQuery q) = some e →
      vq e (min (lim * 2) total) = Except.error () →
      vdbQueryContacts total getEmb vq tq q lim =
        (match tq (createIntelligentQuery q) (min (lim * 2) total) with
         | Except.ok r => processIntelligentResults r q lim
         | Except.error _ => [])) ∧
    spQueryContacts B uid q none lim = spSearchUserContacts B uid q lim ∧
    (spSemanticSearchContacts B uid lim = [] →
      spQueryContacts B uid q (some e) lim = spSearchUserContacts B uid q lim) := by
  refine ⟨?_, ?_, rfl, ?_⟩
  · intro hge
    unfold vdbQueryContacts
    rw [if_neg (by simp [htot])]
    simp only [hge]
  · intro hge hvq
    unfold vdbQueryContacts
    rw [if_neg (by simp [htot])]
    simp only [hge, hvq]
  · intro hsem
    unfold spQueryContacts
    rw [hsem]
    rfl

/-- Witness for the amended C3 at a concrete echoing text backend. -/
theorem C3_amended_fallback_behaviour_witness :
    (vdbQueryContacts 1 noEmbedding failingVectorQuery echoTextQuery ("hospital".data) 5 =
      (match echoTextQuery (createIntelligentQuery ("hospital".data)) (min (5 * 2) 1) with
       | Except.ok r => processIntelligentResults r ("hospital".data) 5
       | Except.error _ => [])) ∧
    spQueryContacts failingBackend ("u".data) ("hospital".data) none 5 =
      spSearchUserContacts failingBackend ("u".data) ("hospital".data) 5 :=
  ⟨(C3_amended_fallback_behaviour 1 noEmbedding failingVectorQuery echoTextQuery
      ("hospital".data) 5 failingBackend ("u".data) [1] (by decide)).1 rfl,
   (C3_amended_fallback_behaviour 1 noEmbedding failingVectorQuery echoTextQuery
      ("hospital".data) 5 failingBackend ("u".data) [1] (by decide)).2.2.1⟩

/-- Counterexample for C4: a candidate produced by the pure text-search path
for the short query zq has zero business relevance and zero keyword
relevance, yet its exposed relevance score is the fixed 0.8 assigned by the
text search — not the claimed combined score 0.32; the 0.4/0.4/0.2 combiner
is never applied on this path. -/
theorem C4_text_score_counterexample :
    (devSearchContacts shortQueryStore ("uA".data) ("zq".data) 10).map
      (fun r => r.relevanceScore) = [some ((8:ℚ)/10)] ∧
    calculateBusinessRelevance (CandMetadata.mk ("zqcorp".data) [] [] [] [])
      ("zq".data) = 0 ∧
    calculateKeywordRelevance (devSearchableText shortQueryContact) ("zq".data) = 0 ∧
    ((8:ℚ)/10) ≠ 32/100 := by
  refine ⟨?_, ?_, ?_, by norm_num⟩
  · unfold devSearchContacts shortQueryStore shortQueryContact devSearchableText
      lowerStr lookupStore fmtDevSearch
    simp +decide [isSubstrB, isPrefixB]
  · unfold calculateBusinessRelevance
    simp +decide [categoryLoop_eq_any, wordLoop_eq_count, splitWords, splitWordsAux,
      lowerStr, isSubstrB, isPrefixB]
  · unfold calculateKeywordRelevance devSearchableText shortQueryContact
    simp +decide [splitWords, splitWordsAux, lowerStr, isSubstrB, isPrefixB]

/-- C4 amended: every candidate produced by the text-search path (development
or production) carries the fixed relevance score 0.8 assigned directly by the
search; it is not passed through the 0.4/0.4/0.2 combiner, so no 0.32
combined score arises on this path. -/
theorem C4_amended_text_path_score (store : DevStore) (uid q : List Char) (lim : Nat)
    (B : SpBackend) :
    (∀ res ∈ devSearchContacts store uid q lim, res.relevanceScore = some (8/10)) ∧
    (∀ res ∈ spSearchUserContacts B uid q lim, res.relevanceScore = some (8/10)) := by
  constructor
  · intro res hres
    unfold devSearchContacts at hres
    obtain ⟨rec, _, rfl⟩ := List.mem_map.mp (List.take_subset _ _ hres)
    rfl
  · intro res hres
    unfold spSearchUserContacts at hres
    cases hcall : B uid q lim with
    | ok rows =>
      rw [hcall] at hres
      obtain ⟨rec, _, rfl⟩ := List.mem_map.mp hres
      rfl
    | error e2 =>
      rw [hcall] at hres
      simp at hres

/-- Witness for the amended C4 at a concrete store and query. -/
theorem C4_amended_text_path_score_witness :
    (fmtDevSearch shortQueryContact).relevanceScore = some (8/10) := by
  have hmem : fmtDevSearch shortQueryContact ∈
      devSearchContacts shortQueryStore ("uA".data) ("zq".data) 10 := by
    have h : devSearchContacts shortQueryStore ("uA".data) ("zq".data) 10 =
        [fmtDevSearch shortQueryContact] := by
      unfold devSearchContacts shortQueryStore shortQueryContact devSearchableText
        lowerStr lookupStore
      simp +decide [isSubstrB, isPrefixB]
    rw [h]
    exact List.mem_singleton_self _
  exact (C4_amended_text_path_score shortQueryStore ("uA".data) ("zq".data) 10
    emptyBackend).1 (fmtDevSearch shortQueryContact) hmem

/-- Witness for C6 at a concrete record and query. -/
theorem C6_business_relevance_rule_witness :
    calculateBusinessRelevance (CandMetadata.mk [] [] [] [] []) ("q".data) =
      businessRelevanceSpec (CandMetadata.mk [] [] [] [] []) ("q".data) ∧
    ((scoreCandidate (RawCand.mk ("a".data) ("doc".data) (CandMetadata.mk [] [] [] [] [])
        (some 0)) ("q".data)).businessMatch = true ↔
      calculateBusinessRelevance
        (RawCand.mk ("a".data) ("doc".data) (CandMetadata.mk [] [] [] [] [])
          (some 0)).metadata ("q".data) > 3/10) :=
  C6_business_relevance_rule (CandMetadata.mk [] [] [] [] []) ("q".data)
    (RawCand.mk ("a".data) ("doc".data) (CandMetadata.mk [] [] [] [] []) (some 0))

/-- Witness for C9 at the concrete query hospital. -/
theorem C9_query_enhancer_witness :
    createIntelligentQuery ("hospital".data) = enhanceSpec ("hospital".data) ∧
    (∃ p, createIntelligentQuery ("hospital".data) = p ++ ' ' :: businessContext) ∧
    createIntelligentQuery [] = ' ' :: businessContext :=
  C9_query_enhancer ("hospital".data)

end ContactManagement
